import Mathlib

/-!
Verification of the GEPA optimization subsystem of the `web-agentic`
authoring service: the four scoring functions (`app/gepa/scoring.py`), the
evaluation harness (`app/gepa/eval_harness.py`), the optimizer loop
(`app/gepa/optimizer.py`) and the file-based profile / task-spec stores
(`app/storage/profiles_repo.py`, `app/storage/task_specs_repo.py`).

The Python code manipulates JSON-like data (dicts, lists, strings, numbers,
booleans, None).  We embed those values as the inductive type `Val`; a
Python dict is an association list with first-match lookup and in-place
update, mirroring dict insertion-order semantics.  Python floats are
modelled as rationals (all arithmetic in the scoring code is exact decimal
arithmetic on small literals).  A Python function that can raise is
embedded as an `Option`-returning function, `none` meaning an exception
propagates; file I/O is modelled by threading the directory contents
(a map from file stem to parsed JSON) through each repository operation.
-/

/- Rational arithmetic is shipped `@[irreducible]`; re-enable unfolding so
that concrete runs of the embedded programs can be settled by `decide`. -/
attribute [local semireducible] Rat.add Rat.mul Rat.inv Rat.sub Rat.ofScientific

/-- JSON-like Python value: `None`, `bool`, number, string, list, dict. -/
inductive Val where
  | null : Val
  | bool : Bool → Val
  | num : ℚ → Val
  | str : String → Val
  | arr : List Val → Val
  | obj : List (String × Val) → Val

/-- A Python dict holding JSON data: association list, first match wins. -/
abbrev Obj := List (String × Val)

/-- Lookup of a key in a dict (`d[k]` / `d.get(k)` when the key exists). -/
def objLookup : Obj → String → Option Val
  | [], _ => none
  | (k, v) :: rest, key => if k = key then some v else objLookup rest key

/-- Key update `d[k] = v`: replaces in place or appends, as a Python dict. -/
def objSet : Obj → String → Val → Obj
  | [], key, v => [(key, v)]
  | (k, w) :: rest, key, v =>
    if k = key then (k, v) :: rest else (k, w) :: objSet rest key v

/-- Python `d.get(k, default)`. -/
def objGetD (o : Obj) (k : String) (dflt : Val) : Val :=
  (objLookup o k).getD dflt

/-- Python truthiness of a JSON value. -/
def Val.truthy : Val → Bool
  | .null => false
  | .bool b => b
  | .num q => decide (q ≠ 0)
  | .str s => !s.isEmpty
  | .arr xs => !xs.isEmpty
  | .obj kvs => !kvs.isEmpty

/-- Whether the value is Python `None`. -/
def Val.isNull : Val → Bool
  | .null => true
  | _ => false

/-- Python hashability: lists and dicts are unhashable, so using them as an
argument of a set-membership test raises `TypeError`. -/
def pyHashable : Val → Bool
  | .arr _ => false
  | .obj _ => false
  | _ => true

/-- Python `len(x)` for values that support it (`TypeError` otherwise). -/
def pyLen : Val → Option ℕ
  | .str s => some s.length
  | .arr xs => some xs.length
  | .obj kvs => some kvs.length
  | _ => none

/-- Elements produced by iterating a sized Python value: a list yields its
items, a dict its keys, a string its one-character substrings. -/
def pyElems : Val → List Val
  | .arr xs => xs
  | .obj kvs => kvs.map (fun kv => .str kv.1)
  | .str s => s.toList.map (fun c => .str (String.singleton c))
  | _ => []

/-- Python iteration `for x in v` for `enumerate`-style loops: a list
yields its items, a dict its keys, a string its one-character substrings;
numbers, booleans and `None` raise `TypeError` (`none`). -/
def pyIterate : Val → Option (List Val)
  | .arr xs => some xs
  | .obj kvs => some (kvs.map (fun kv => .str kv.1))
  | .str s => some (s.toList.map (fun c => .str (String.singleton c)))
  | _ => none

/-- Python `a or b` (first truthy operand). -/
def pyOr (a b : Val) : Val :=
  if a.truthy then a else b

/-- Monadic map over `Option`: the first raise propagates. -/
def mapMO (f : α → Option β) : List α → Option (List β)
  | [] => some []
  | x :: xs =>
    match f x with
    | none => none
    | some y =>
      match mapMO f xs with
      | none => none
      | some ys => some (y :: ys)

/-! ### `app/gepa/scoring.py` -/

/-- Valid workflow operations (`VALID_OPS`). -/
def VALID_OPS : List String :=
  ["goto", "act_cached", "act_template", "extract", "choose", "checkpoint", "wait"]

/-- Required fields per operation type (`REQUIRED_FIELDS`). -/
def REQUIRED_FIELDS : List (String × List String) :=
  [("goto", ["args"]), ("act_cached", ["targetKey"]), ("act_template", ["targetKey"]),
   ("extract", ["targetKey"]), ("choose", ["args"]), ("checkpoint", ["args"]),
   ("wait", ["args"])]

/-- Python `str.capitalize`: first character upper-cased, rest lower-cased. -/
def capitalizePy (s : String) : String :=
  match s.toList with
  | [] => ""
  | c :: cs => String.mk (c.toUpper :: cs.map Char.toLower)

/-- `snake.split("_")` on the character list (empty pieces preserved). -/
def splitUS : List Char → List String
  | [] => [""]
  | c :: cs =>
    if c = '_' then "" :: splitUS cs
    else
      match splitUS cs with
      | [] => [String.singleton c]
      | h :: t => (String.singleton c ++ h) :: t

/-- `_camel_case`: convert `snake_case` to `camelCase`. -/
def camelCase (snake : String) : String :=
  match splitUS snake.toList with
  | [] => ""
  | p :: ps => p ++ String.join (ps.map capitalizePy)

/-- A step counted as valid by `score_schema_validity`: a dict having both
an `id` and an `op` key. -/
def stepHasIdOp (s : Val) : Bool :=
  match s with
  | .obj o => (objLookup o "id").isSome && (objLookup o "op").isSome
  | _ => false

/-- A well-formed action entry: dict with `preferred` and `instruction`,
whose `preferred` is a dict with `selector` and `method`. -/
def actionEntryValid (entry : Val) : Bool :=
  match entry with
  | .obj e =>
    (objLookup e "preferred").isSome && (objLookup e "instruction").isSome &&
      (match objGetD e "preferred" .null with
       | .obj p => (objLookup p "selector").isSome && (objLookup p "method").isSome
       | _ => false)
  | _ => false

/-- A well-formed policy entry: dict with `hard` and `pick` keys. -/
def policyEntryValid (pol : Val) : Bool :=
  match pol with
  | .obj p => (objLookup p "hard").isSome && (objLookup p "pick").isSome
  | _ => false

/-- Workflow section of the `score_schema_validity` checklist: workflow is
a dict, has a non-empty step list, per-step id+op presence ratio, and a
workflow id. -/
def workflowChecks (recipe : Obj) : List ℚ :=
  match objLookup recipe "workflow" with
  | some (.obj workflow) =>
    1 ::
      (match objGetD workflow "steps" (.arr []) with
       | .arr steps =>
         if steps.length > 0 then
           [1, if steps.isEmpty then 0
               else ((steps.filter stepHasIdOp).length : ℚ) / (steps.length : ℚ)]
         else [0, 0]
       | _ => [0, 0]) ++
      (if (objLookup workflow "id").isSome then [1] else [0])
  | _ => [0, 0, 0, 0]

/-- Actions section of the checklist: a dict, empty counting as fully
valid, otherwise the ratio of well-formed entries. -/
def actionsChecks (recipe : Obj) : List ℚ :=
  match objLookup recipe "actions" with
  | some (.obj actions) =>
    if actions.isEmpty then [1, 1]
    else [1, ((actions.filter (fun kv => actionEntryValid kv.2)).length : ℚ) /
               (actions.length : ℚ)]
  | _ => [0, 0]

/-- Selectors section of the checklist: present as a dict. -/
def selectorsChecks (recipe : Obj) : List ℚ :=
  match objLookup recipe "selectors" with
  | some (.obj _) => [1]
  | _ => [0]

/-- Policies section of the checklist; mirrors the actions section. -/
def policiesChecks (recipe : Obj) : List ℚ :=
  match objLookup recipe "policies" with
  | some (.obj policies) =>
    if policies.isEmpty then [1, 1]
    else [1, ((policies.filter (fun kv => policyEntryValid kv.2)).length : ℚ) /
               (policies.length : ℚ)]
  | _ => [0, 0]

/-- Fingerprints section of the checklist: present as a dict. -/
def fingerprintsChecks (recipe : Obj) : List ℚ :=
  match objLookup recipe "fingerprints" with
  | some (.obj _) => [1]
  | _ => [0]

/-- `score_schema_validity(recipe)`: averages the fixed checklist over the
five recipe sections.  Total (never raises). -/
def score_schema_validity (recipe : Obj) : ℚ :=
  let checks := workflowChecks recipe ++ actionsChecks recipe ++ selectorsChecks recipe ++
    policiesChecks recipe ++ fingerprintsChecks recipe
  if checks.isEmpty then 0 else checks.sum / (checks.length : ℚ)

/-- Credit awarded by `score_dry_run_success` to a dict step whose `op`
is the recognized operation `op`: 0.4 base, 0.3 scaled by the required
fields present (exact or camel-cased spelling, value not `None`), 0.2 for
an `id` key, 0.1 for a URL in a `goto` step's args (unconditional for
other operations). -/
def dryStepValidScore (st : Obj) (op : String) : ℚ :=
  let required := (REQUIRED_FIELDS.lookup op).getD []
  let present := (required.filter (fun f =>
      !(objGetD st f .null).isNull || !(objGetD st (camelCase f) .null).isNull)).length
  let fieldPart : ℚ :=
    if required.length = 0 then 0.3
    else 0.3 * ((present : ℚ) / (required.length : ℚ))
  let idPart : ℚ := if (objLookup st "id").isSome then 0.2 else 0
  let urlPart : ℚ :=
    if op = "goto" then
      match objGetD st "args" (.obj []) with
      | .obj args => if (objLookup args "url").isSome then 0.1 else 0
      | _ => 0
    else 0.1
  0.4 + fieldPart + idPart + urlPart

/-- Per-step score of `score_dry_run_success`.  `none` models the
`TypeError` raised by `op in VALID_OPS` when the step's `op` is an
unhashable value (a list or a dict). -/
def dryStepScore (step : Val) : Option ℚ :=
  match step with
  | .obj st =>
    match objGetD st "op" (.str "") with
    | .str op =>
      if VALID_OPS.contains op then some (dryStepValidScore st op) else some 0
    | .arr _ => none
    | .obj _ => none
    | _ => some 0
  | _ => some 0

/-- `score_dry_run_success(workflow)`. -/
def score_dry_run_success (workflow : Obj) : Option ℚ :=
  match objGetD workflow "steps" (.arr []) with
  | .arr steps =>
    if steps.length = 0 then some 0
    else
      match mapMO dryStepScore steps with
      | none => none
      | some scores =>
        some (if scores.isEmpty then 0 else scores.sum / (scores.length : ℚ))
  | _ => some 0

/-- Penalised per-step value of `score_replay_determinism` for a dict step
(with a hashable `op`): 1.0 minus the three penalties, floored at 0. -/
def replayStepValue (st : Obj) : ℚ :=
  let op := objGetD st "op" (.str "")
  let targetKey := pyOr (objGetD st "targetKey" .null) (objGetD st "target_key" .null)
  let opStr := match op with | .str s => s | _ => ""
  let p1 : ℚ :=
    if ["act_cached", "act_template", "extract"].contains opStr && !targetKey.truthy
    then 0.4 else 0
  let p2 : ℚ :=
    if ["act_cached", "act_template", "extract", "goto"].contains opStr &&
         !(objGetD st "expect" .null).truthy
    then 0.3 else 0
  let p3 : ℚ :=
    if opStr = "checkpoint" then
      match objGetD st "args" (.obj []) with
      | .obj args => if (objLookup args "message").isSome then 0 else 0.2
      | _ => 0.2
    else 0
  max 0 (1 - p1 - p2 - p3)

/-- Per-step score of `score_replay_determinism`.  `none` models the
`TypeError` raised by the set-membership tests on an unhashable `op`. -/
def replayStepScore (step : Val) : Option ℚ :=
  match step with
  | .obj st =>
    if pyHashable (objGetD st "op" (.str "")) then some (replayStepValue st)
    else none
  | _ => some 0

/-- `score_replay_determinism(workflow)`. -/
def score_replay_determinism (workflow : Obj) : Option ℚ :=
  match objGetD workflow "steps" (.arr []) with
  | .arr steps =>
    if steps.length = 0 then some 0
    else
      match mapMO replayStepScore steps with
      | none => none
      | some scores =>
        some (if scores.isEmpty then 0 else scores.sum / (scores.length : ℚ))
  | _ => some 0

/-- `isinstance(s, dict) and s.get("op") == opname`. -/
def isOpEq (s : Val) (opname : String) : Bool :=
  match s with
  | .obj o =>
    match objGetD o "op" .null with
    | .str t => t = opname
    | _ => false
  | _ => false

/-- `score_token_cost(recipe)`.  `none` models the `TypeError` raised by
`len(steps)` when `workflow.steps` is a truthy value without a length
(a number or `True`): unlike its three siblings this function does not
guard `steps` with `isinstance(steps, list)`. -/
def score_token_cost (recipe : Obj) : Option ℚ :=
  let workflow := objGetD recipe "workflow" (.obj [])
  let steps : Val :=
    match workflow with
    | .obj w => objGetD w "steps" (.arr [])
    | _ => .arr []
  if !steps.truthy then some 0
  else
    match pyLen steps with
    | none => none
    | some step_count =>
      let elems := pyElems steps
      let extract_count := (elems.filter (fun s => isOpEq s "extract")).length
      let choose_count := (elems.filter (fun s => isOpEq s "choose")).length
      let checkpoint_count := (elems.filter (fun s => isOpEq s "checkpoint")).length
      let step_cost : ℚ := min ((step_count : ℚ) / 20) 1
      let extract_cost : ℚ := min ((extract_count : ℚ) / 5) 1
      let choose_cost : ℚ := min ((choose_count : ℚ) / 3) 1
      let checkpoint_cost : ℚ := min ((checkpoint_count : ℚ) / 5) 1
      let cost := 0.4 * step_cost + 0.3 * extract_cost + 0.2 * choose_cost +
        0.1 * checkpoint_cost
      some (min (max cost 0) 1)

/-! ### `app/gepa/eval_harness.py` -/

/-- Default promotion threshold (`PROMOTION_THRESHOLD = 0.82`). -/
def PROMOTION_THRESHOLD : ℚ := 0.82

/-- The `EvalResult` dataclass. -/
structure EvalResult where
  schema_validity : ℚ
  dry_run_success : ℚ
  replay_determinism : ℚ
  token_cost : ℚ
  total_score : ℚ
  passed : Bool
  details : Obj

/-- `max(0.0, min(1.0, total))`. -/
def clamp01 (q : ℚ) : ℚ := max 0 (min 1 q)

/-- The `task_spec_id` detail: `task_spec.get("id") if task_spec else None`.
`none` models the `AttributeError` of `.get` on a truthy non-dict spec. -/
def detailsSpecId : Option Val → Option Val
  | none => some .null
  | some ts =>
    if ts.truthy then
      match ts with
      | .obj o => some (objGetD o "id" .null)
      | _ => none
    else some .null

/-- `EvalHarness.evaluate(recipe_json, task_spec)` for a harness with the
given threshold.  `none` models a propagating exception (non-dict recipe,
or a raise inside a scoring function). -/
def evaluate (threshold : ℚ) (recipe_json : Val) (task_spec : Option Val) :
    Option EvalResult :=
  match recipe_json with
  | .obj recipe =>
    let workflow_data : Obj :=
      match objGetD recipe "workflow" (.obj []) with
      | .obj w => w
      | _ => []
    let sv := score_schema_validity recipe
    match score_dry_run_success workflow_data with
    | none => none
    | some dr =>
      match score_replay_determinism workflow_data with
      | none => none
      | some rd =>
        match score_token_cost recipe with
        | none => none
        | some tc =>
          match detailsSpecId task_spec with
          | none => none
          | some tsid =>
            let total := clamp01 (0.45 * dr + 0.25 * sv + 0.20 * rd - 0.10 * tc)
            some { schema_validity := sv, dry_run_success := dr,
                   replay_determinism := rd, token_cost := tc,
                   total_score := total, passed := decide (threshold ≤ total),
                   details := [("task_spec_id", tsid), ("threshold", .num threshold)] }
  | _ => none

/-- `EvalHarness.evaluate_batch(recipes, task_specs)`: the i-th recipe is
paired with `task_specs[i] if i < len(task_specs) else None`, expressed
recursively via `head?` and `tail`. -/
def evaluate_batch (threshold : ℚ) : List Val → List Val → Option (List EvalResult)
  | [], _ => some []
  | recipe :: rest, specs =>
    match evaluate threshold recipe specs.head? with
    | none => none
    | some er =>
      match evaluate_batch threshold rest specs.tail with
      | none => none
      | some tl => some (er :: tl)

/-- `EvalHarness.average_score(results)`. -/
def average_score (results : List EvalResult) : ℚ :=
  if results.isEmpty then 0
  else (results.map EvalResult.total_score).sum / (results.length : ℚ)

/-! ### `app/storage/profiles_repo.py`

The profiles directory is modelled as an association list from file stem
to the parsed JSON contents of `{stem}.json`. -/

/-- Contents of a storage directory: file stem to parsed JSON. -/
abbrev Store := List (String × Val)

/-- `ProfilesRepo.get(profile_id)`: `None` when the file does not exist. -/
def ProfilesRepo.get (s : Store) (pid : String) : Option Val :=
  objLookup s pid

/-- `ProfilesRepo.save(profile_id, data)`: (over)write the file. -/
def ProfilesRepo.save (s : Store) (pid : String) (data : Val) : Store :=
  objSet s pid data

/-- Decimal digits to the natural number they denote (`int(suffix)`). -/
def digitsToNatAux : ℕ → List Char → ℕ
  | acc, [] => acc
  | acc, c :: cs => digitsToNatAux (acc * 10 + (c.toNat - 48)) cs

/-- The promoted version encoded by a file stem, if any: the stem must be
`{profile_id}_v{suffix}` with a non-empty all-digit suffix
(`suffix.isdigit()`; only ASCII digits are modelled — Python's `isdigit`
also accepts some unicode digits on which `int()` then raises). -/
def versionOfStem (pid stem : String) : Option ℕ :=
  let pre := (pid ++ "_v").toList
  let cs := stem.toList
  if pre.isPrefixOf cs then
    let suf := cs.drop pre.length
    if !suf.isEmpty && suf.all Char.isDigit then some (digitsToNatAux 0 suf)
    else none
  else none

/-- Insert into a sorted list of naturals. -/
def insertNat (n : ℕ) : List ℕ → List ℕ
  | [] => [n]
  | m :: ms => if n ≤ m then n :: m :: ms else m :: insertNat n ms

/-- Insertion sort on naturals (`sorted(versions)`). -/
def insSortNat : List ℕ → List ℕ
  | [] => []
  | n :: ns => insertNat n (insSortNat ns)

/-- `max(versions, default=0)`. -/
def maxNatList (l : List ℕ) : ℕ := l.foldr max 0

/-- `ProfilesRepo.list_versions(profile_id)`: the sorted promoted versions
parsed from the matching `{profile_id}_v{n}.json` stems. -/
def ProfilesRepo.listVersions (s : Store) (pid : String) : List ℕ :=
  insSortNat (s.filterMap (fun kv => versionOfStem pid kv.1))

/-- `ProfilesRepo.promote(profile_id, version)`: copy the current profile
file to `{profile_id}_v{version}.json`, stamping `version` and
`promoted: True` inside the copy.  `none` models `FileNotFoundError` when
the source profile is missing (and `TypeError` when its JSON contents are
not a dict). -/
def ProfilesRepo.promote (s : Store) (pid : String) (version : ℕ) : Option Store :=
  match ProfilesRepo.get s pid with
  | none => none
  | some data =>
    let promoted_id := pid ++ "_v" ++ toString version
    match data with
    | .obj d =>
      some (objSet s promoted_id
        (.obj (objSet (objSet d "version" (.num (version : ℚ))) "promoted" (.bool true))))
    | _ => none

/-! ### `app/storage/task_specs_repo.py` -/

/-- Substring containment on character lists (Python `item in str`). -/
def infixOf (needle : List Char) : List Char → Bool
  | [] => needle.isEmpty
  | c :: cs => needle.isPrefixOf (c :: cs) || infixOf needle cs

/-- One entry of `TaskSpecsRepo.get_specs`: `if "id" not in data:
data["id"] = p.stem`.  On a non-dict JSON value the Python membership /
item-assignment semantics apply: a list or string containing `"id"` is
appended unchanged, anything else raises (`none`). -/
def getSpecsEntry (stem : String) (v : Val) : Option Val :=
  match v with
  | .obj o =>
    if (objLookup o "id").isSome then some v
    else some (.obj (objSet o "id" (.str stem)))
  | .arr xs =>
    if xs.any (fun e => match e with | .str s => s = "id" | _ => false) then some v
    else none
  | .str s =>
    if infixOf ("id".toList) s.toList then some v else none
  | _ => none

/-- Insert into a list of store entries sorted by file name (the stem with
the `.json` suffix restored, as `glob` compares full names). -/
def insertByStem (kv : String × Val) : Store → Store
  | [] => [kv]
  | hd :: tl =>
    if kv.1 ++ ".json" ≤ hd.1 ++ ".json" then kv :: hd :: tl
    else hd :: insertByStem kv tl

/-- Sort store entries by file name (`sorted(self.base_dir.glob(...))`). -/
def sortByStem : Store → Store
  | [] => []
  | kv :: rest => insertByStem kv (sortByStem rest)

/-- `TaskSpecsRepo.get_specs()`.  Files whose contents fail to parse as
JSON are skipped by the Python code; every value of the modelled store is
already parsed, so that branch has no counterpart here. -/
def TaskSpecsRepo.getSpecs (s : Store) : Option (List Val) :=
  mapMO (fun kv => getSpecsEntry kv.1 kv.2) (sortByStem s)

/-! ### `app/gepa/optimizer.py` -/

/-- The `RoundResult` dataclass. -/
structure RoundResult where
  round_num : ℕ
  score : ℚ
  eval_result : EvalResult
  recipe : Val
  reflection : Option String := none

/-- The `OptimizationResult` dataclass. -/
structure OptimizationResult where
  profile_id : String
  rounds : ℕ
  final_score : ℚ
  promoted : Bool
  promoted_version : Option ℕ := none
  history : List RoundResult := []

/-- Scalar rendering used inside f-strings and list reprs.  String and
numeric renderings approximate Python's formatting (nested containers are
not rendered in full); no verified property below inspects rendered
text. -/
def reprScalar : Val → String
  | .null => "None"
  | .bool b => if b then "True" else "False"
  | .num q => toString q.num ++ "/" ++ toString q.den
  | .str s =>
    String.singleton (Char.ofNat 39) ++ s ++ String.singleton (Char.ofNat 39)
  | .arr _ => "[...]"
  | .obj _ => "\x7b...\x7d"

/-- Python `repr` of the hints value (a flat list renders element-wise). -/
def reprHints (v : Val) : String :=
  match v with
  | .arr xs => "[" ++ String.intercalate ", " (xs.map reprScalar) ++ "]"
  | other => reprScalar other

/-- f-string interpolation `f"...{v}..."` (`str(v)`). -/
def pyFStr : Val → String
  | .str s => s
  | v => reprHints v

/-- Three-digit zero-padding for `fmt3`. -/
def pad3 (n : ℕ) : String :=
  if n < 10 then "00" ++ toString n
  else if n < 100 then "0" ++ toString n
  else toString n

/-- Rendering of a non-negative score with three decimals, as
`f"{score:.3f}"` prints it (Python rounds the underlying binary float;
this model truncates the rational — the difference never shows on the
scores arising here, and no verified property inspects the text). -/
def fmt3 (q : ℚ) : String :=
  let m := (q * 1000).floor.toNat
  toString (m / 1000) ++ "." ++ pad3 (m % 1000)

/-- `_default_recipe_generator(profile, task_spec)`. -/
def _default_recipe_generator (_profile task_spec : Val) : Option Val :=
  match task_spec with
  | .obj ts =>
    let goal := objGetD ts "goal" (.str "default task")
    let domain := objGetD ts "domain" (.str "example.com")
    let _procedure := objGetD ts "procedure" (.str "")
    let firstStep : Val := .obj
      [("id", .str "open"), ("op", .str "goto"),
       ("args", .obj [("url", .str ("https://" ++ pyFStr domain))]),
       ("expect", .arr [.obj [("kind", .str "url_contains"), ("value", domain)]])]
    let proc_steps := objGetD ts "procedure_steps" (.arr [])
    match pyIterate proc_steps with
    | some ps =>
      match mapMO (fun ip =>
          match ip.2 with
          | .obj p =>
            let sid := "step_" ++ toString ip.1
            let target_key := objGetD p "targetKey" (.str sid)
            some (Val.obj
              [("id", .str sid), ("op", objGetD p "op" (.str "act_cached")),
               ("targetKey", target_key),
               ("expect", objGetD p "expect"
                  (.arr [.obj [("kind", .str "selector_visible"), ("value", .str "body")]]))])
          | _ => none) ps.enum with
      | none => none
      | some midSteps =>
        let lastStep : Val := .obj
          [("id", .str "checkpoint_end"), ("op", .str "checkpoint"),
           ("args", .obj [("message",
              .str ("Completed: " ++ pyFStr goal ++ ". Verify results?"))])]
        some (.obj
          [("workflow", .obj
             [("id", .str (pyFStr domain ++ "_flow")),
              ("steps", .arr (firstStep :: midSteps ++ [lastStep]))]),
           ("actions", .obj []), ("selectors", .obj []),
           ("policies", .obj []), ("fingerprints", .obj [])])
    | none => none
  | _ => none

/-- Equality of hashable (scalar) values, used for `set` deduplication.
Python's cross-type numeric equalities (`1 == True`) are not modelled;
the hints produced by the default reflector are all strings. -/
def eqScalar : Val → Val → Bool
  | .null, .null => true
  | .bool a, .bool b => a = b
  | .num a, .num b => a = b
  | .str a, .str b => a = b
  | _, _ => false

/-- Deduplication of a list of hashable values, keeping first occurrences
(`list(set(hints))`; Python's set iteration order is unspecified, and no
verified property depends on the order of the hint list). -/
def dedupScalar (seen : List Val) : List Val → List Val
  | [] => []
  | x :: xs =>
    if seen.any (eqScalar x) then dedupScalar seen xs
    else x :: dedupScalar (seen ++ [x]) xs

/-- `_default_reflector(profile, eval_result, recipe)`.  `none` models the
raises on a non-dict profile, a non-list hints value, or unhashable hint
elements. -/
def _default_reflector (profile : Val) (eval_result : EvalResult) (_recipe : Val) :
    Option Val :=
  match profile with
  | .obj p =>
    match objGetD p "optimization_hints" (.arr []) with
    | .arr hs =>
      let hs := hs ++
        (if eval_result.schema_validity < 0.8 then [Val.str "ensure_all_schema_fields"] else []) ++
        (if eval_result.dry_run_success < 0.8 then [Val.str "validate_op_types_and_required_fields"] else []) ++
        (if eval_result.replay_determinism < 0.8 then [Val.str "add_targetKey_and_expect_to_all_steps"] else []) ++
        (if eval_result.token_cost > 0.5 then [Val.str "reduce_extract_and_choose_steps"] else [])
      if hs.all pyHashable then
        some (.obj (objSet (objSet p "optimization_hints" (.arr (dedupScalar [] hs)))
          "last_score" (.num eval_result.total_score)))
      else none
    | _ => none
  | _ => none

/-- Python `item in container` for a string literal item: a list compares
element-wise, a string tests substring containment, a dict tests key
membership; other containers raise (`none`). -/
def pyContainsStr (container : Val) (lit : String) : Option Bool :=
  match container with
  | .arr xs => some (xs.any (fun e => match e with | .str s => s = lit | _ => false))
  | .str s => some (infixOf lit.toList s.toList)
  | .obj kvs => some (kvs.any (fun kv => kv.1 = lit))
  | _ => none

/-- The per-step augmentation of `_improved_recipe_generator` under the
`add_targetKey_and_expect_to_all_steps` hint.  `none` models the raise of
`step.get` on a non-dict step. -/
def improveStep (step : Val) : Option Val :=
  match step with
  | .obj st =>
    let opIs : List String → Bool := fun ops =>
      match objGetD st "op" (.str "") with
      | .str s => ops.contains s
      | _ => false
    match
      (if opIs ["act_cached", "act_template", "extract"] &&
           !(objLookup st "targetKey").isSome then
        match objLookup st "id" with
        | some idv => some (objSet st "targetKey" (.str (pyFStr idv ++ ".action")))
        | none => none
      else some st) with
    | none => none
    | some st1 =>
      if opIs ["act_cached", "act_template", "extract", "goto"] &&
          !(objLookup st1 "expect").isSome then
        some (.obj (objSet st1 "expect"
          (.arr [.obj [("kind", .str "selector_visible"), ("value", .str "body")]])))
      else some (.obj st1)
  | _ => none

/-- The predicate of the `choose`-pruning list comprehension:
`s.get("op") != "choose" or s.get("id") in ("choose",)`. -/
def keepStep (s : Val) : Option Bool :=
  match s with
  | .obj st =>
    some (!(match objGetD st "op" .null with | .str t => t = "choose" | _ => false) ||
      (match objGetD st "id" .null with | .str t => t = "choose" | _ => false))
  | _ => none

/-- Filter by an `Option Bool` predicate, propagating a raise. -/
def filterPy (p : α → Option Bool) : List α → Option (List α)
  | [] => some []
  | x :: xs =>
    match p x with
    | none => none
    | some b =>
      match filterPy p xs with
      | none => none
      | some rest => some (if b then x :: rest else rest)

/-- `_improved_recipe_generator(profile, task_spec)`. -/
def _improved_recipe_generator (profile task_spec : Val) : Option Val :=
  match _default_recipe_generator profile task_spec with
  | none => none
  | some recipe =>
    let hints :=
      match profile with
      | .obj p => some (objGetD p "optimization_hints" (.arr []))
      | _ => none
    match hints with
    | none => none
    | some hints =>
      match recipe with
      | .obj r =>
        match objLookup r "workflow" with
        | some (.obj w) =>
          match objLookup w "steps" with
          | some (.arr steps) =>
            match pyContainsStr hints "add_targetKey_and_expect_to_all_steps" with
            | none => none
            | some addHint =>
              match (if addHint then mapMO improveStep steps else some steps) with
              | none => none
              | some steps1 =>
                match pyContainsStr hints "reduce_extract_and_choose_steps" with
                | none => none
                | some pruneHint =>
                  match (if pruneHint then filterPy keepStep steps1 else some steps1) with
                  | none => none
                  | some steps2 =>
                    some (.obj (objSet r "workflow" (.obj (objSet w "steps" (.arr steps2)))))
          | _ => none
        | _ => none
      | _ => none

/-- The task spec substituted when the bank is empty. -/
def defaultTaskSpec : Val :=
  .obj [("id", .str "default"), ("goal", .str "test"), ("domain", .str "example.com")]

/-- Generator selection for one round: a caller-supplied generator takes
priority; otherwise the improved generator once the profile carries truthy
optimization hints, else the baseline generator. -/
def chooseGenerator (genOverride : Option (Val → Val → Option Val)) (profile : Val) :
    Option (Val → Val → Option Val) :=
  match genOverride with
  | some g => some g
  | none =>
    match profile with
    | .obj p =>
      some (if (objGetD p "optimization_hints" .null).truthy
        then _improved_recipe_generator else _default_recipe_generator)
    | _ => none

/-- Generate and evaluate one candidate per task spec. -/
def evalRound (threshold : ℚ) (generator : Val → Val → Option Val) (profile : Val) :
    List Val → Option (List (EvalResult × Val))
  | [] => some []
  | spec :: rest =>
    match generator profile spec with
    | none => none
    | some recipe =>
      match evaluate threshold recipe (some spec) with
      | none => none
      | some res =>
        match evalRound threshold generator profile rest with
        | none => none
        | some tl => some ((res, recipe) :: tl)

/-- `max(range(len(round_results)), key=...)` realised on the result list:
the first pair attaining the maximal total score (Python's `max` replaces
the current best only on a strictly greater key). -/
def bestByScore : List (EvalResult × Val) → Option (EvalResult × Val)
  | [] => none
  | p :: ps =>
    some (ps.foldl (fun acc q => if acc.1.total_score < q.1.total_score then q else acc) p)

/-- The reflection note
`f"Round {round_num}: score={avg:.3f}, improving based on hints={...}"`,
built from the already-reflected profile. -/
def reflectionNote (roundNum : ℕ) (avg : ℚ) (profile : Val) : Option String :=
  match profile with
  | .obj p =>
    some ("Round " ++ toString roundNum ++ ": score=" ++ fmt3 avg ++
      ", improving based on hints=" ++ reprHints (objGetD p "optimization_hints" (.arr [])))
  | _ => none

/-- Result of the round loop of `GEPAOptimizer.optimize`. -/
structure LoopOut where
  profile : Val
  store : Store
  history : List RoundResult
  best_score : ℚ
  best_recipe : Val

/-- The round loop `for round_num in range(1, max_rounds + 1)` of
`GEPAOptimizer.optimize`, with the repository directory threaded
explicitly.  Recursion is on the remaining fuel; `roundNum` carries the
1-based round number. -/
def optimizeLoop (threshold : ℚ) (genOverride : Option (Val → Val → Option Val))
    (reflector : Val → EvalResult → Val → Option Val) (pid : String)
    (specs : List Val) :
    ℕ → ℕ → Val → Store → List RoundResult → ℚ → Val → Option LoopOut
  | 0, _, profile, store, history, best, bestR =>
    some ⟨profile, store, history, best, bestR⟩
  | fuel + 1, roundNum, profile, store, history, best, bestR =>
    match chooseGenerator genOverride profile with
    | none => none
    | some generator =>
      match evalRound threshold generator profile specs with
      | none => none
      | some pairs =>
        let avg := average_score (pairs.map Prod.fst)
        match bestByScore pairs with
        | none => none
        | some be =>
          if threshold ≤ avg then
            some ⟨profile, store,
              history ++ [⟨roundNum, avg, be.1, be.2, none⟩], avg, be.2⟩
          else
            match reflector profile be.1 be.2 with
            | none => none
            | some profile1 =>
              let store1 := ProfilesRepo.save store pid profile1
              match reflectionNote roundNum avg profile1 with
              | none => none
              | some note =>
                optimizeLoop threshold genOverride reflector pid specs fuel
                  (roundNum + 1) profile1 store1
                  (history ++ [⟨roundNum, avg, be.1, be.2, some note⟩])
                  (if best < avg then avg else best)
                  (if best < avg then be.2 else bestR)

/-- Body of `GEPAOptimizer.optimize` once the profile has been loaded (or
lazily created and saved): substitute the default task spec into an empty
bank, run the round loop from round 1 with best score 0 and best recipe
`{}`, and on termination promote when the best score ever observed meets
the threshold — persisting the best recipe and score into the profile
before minting version `max(existing) + 1`. -/
def optimizeCore (threshold : ℚ) (genOverride : Option (Val → Val → Option Val))
    (reflector : Val → EvalResult → Val → Option Val)
    (taskSpecs : Store) (profile_id : String) (max_rounds : ℕ)
    (profile0 : Val) (store0 : Store) : Option (OptimizationResult × Store) :=
  match TaskSpecsRepo.getSpecs taskSpecs with
  | none => none
  | some specs0 =>
    let task_specs := if specs0.isEmpty then [defaultTaskSpec] else specs0
    match optimizeLoop threshold genOverride reflector profile_id task_specs
        max_rounds 1 profile0 store0 [] 0 (.obj []) with
    | none => none
    | some out =>
      if threshold ≤ out.best_score then
        match out.profile with
        | .obj p =>
          let profile1 : Val :=
            .obj (objSet (objSet p "best_recipe" out.best_recipe)
              "best_score" (.num out.best_score))
          let store1 := ProfilesRepo.save out.store profile_id profile1
          let next_version := maxNatList (ProfilesRepo.listVersions store1 profile_id) + 1
          match ProfilesRepo.promote store1 profile_id next_version with
          | none => none
          | some store2 =>
            some ({ profile_id := profile_id, rounds := out.history.length,
                    final_score := out.best_score, promoted := true,
                    promoted_version := some next_version,
                    history := out.history }, store2)
        | _ => none
      else
        some ({ profile_id := profile_id, rounds := out.history.length,
                final_score := out.best_score, promoted := false,
                promoted_version := none, history := out.history }, out.store)

/-- `GEPAOptimizer.optimize(profile_id, max_rounds)` for an optimizer built
from the given harness threshold, optional generator override and
reflector, acting on the given profiles and task-specs directories.
Returns the `OptimizationResult` together with the final profiles
directory; `none` models a propagating exception.  A missing profile is
created as `{"id": profile_id, "version": 0}` and saved before the loop. -/
def optimize (threshold : ℚ) (genOverride : Option (Val → Val → Option Val))
    (reflector : Val → EvalResult → Val → Option Val)
    (profiles : Store) (taskSpecs : Store) (profile_id : String) (max_rounds : ℕ) :
    Option (OptimizationResult × Store) :=
  match ProfilesRepo.get profiles profile_id with
  | some p =>
    optimizeCore threshold genOverride reflector taskSpecs profile_id max_rounds
      p profiles
  | none =>
    optimizeCore threshold genOverride reflector taskSpecs profile_id max_rounds
      (.obj [("id", .str profile_id), ("version", .num 0)])
      (ProfilesRepo.save profiles profile_id
        (.obj [("id", .str profile_id), ("version", .num 0)]))

/-- Best score across a round history (0 when empty): the running maximum
the optimizer tracks. -/
def scoresMax (history : List RoundResult) : ℚ :=
  (history.map RoundResult.score).foldl max 0

/-! ### Concrete data for the scenario claims (from the repository tests) -/

/-- The `_high_quality_recipe` of the eval-harness tests: workflow
`test_flow` with a `goto`, an `act_cached` and a `checkpoint` step, plus
the four empty auxiliary sections. -/
def highQualityRecipe : Obj :=
  [("workflow", .obj
     [("id", .str "test_flow"),
      ("steps", .arr
        [.obj [("id", .str "open"), ("op", .str "goto"),
               ("args", .obj [("url", .str "https://example.com")]),
               ("expect", .arr [.obj [("kind", .str "url_contains"),
                                      ("value", .str "example.com")]])],
         .obj [("id", .str "login"), ("op", .str "act_cached"),
               ("targetKey", .str "login.submit"),
               ("expect", .arr [.obj [("kind", .str "url_contains"),
                                      ("value", .str "/dashboard")]])],
         .obj [("id", .str "done"), ("op", .str "checkpoint"),
               ("args", .obj [("message", .str "Done?")])]])]),
   ("actions", .obj []), ("selectors", .obj []), ("policies", .obj []),
   ("fingerprints", .obj [])]

/-- A recipe whose `workflow.steps` is the number 1: truthy, but without a
length, so `score_token_cost` runs `len(1)`. -/
def stepsNotSizedRecipe : Obj := [("workflow", .obj [("steps", .num 1)])]

/-- A workflow with a step whose `op` is a (unhashable) list. -/
def unhashableOpWorkflow : Obj :=
  [("steps", .arr [.obj [("id", .str "s"), ("op", .arr [])]])]

/-- A workflow with one step carrying an unrecognized string operation. -/
def invalidOpWorkflow : Obj :=
  [("steps", .arr [.obj [("id", .str "bad"), ("op", .str "invalid_operation")]])]

/-- A workflow with a fully-credited `goto` step and a `goto` step missing
its required `args` (and hence also the URL bonus). -/
def twoGotoWorkflow : Obj :=
  [("steps", .arr
     [.obj [("id", .str "open"), ("op", .str "goto"),
            ("args", .obj [("url", .str "https://x.com")])],
      .obj [("id", .str "open2"), ("op", .str "goto")]])]

/-- A recipe whose raw weighted score is negative (mostly junk steps plus
five `extract` steps drive token cost to 0.7): demonstrates clamping. -/
def clampedRecipe : Obj :=
  [("workflow", .obj [("steps",
     .arr (List.replicate 95 (Val.str "a") ++
       List.replicate 5 (.obj [("op", .str "extract")])))])]

/-! ### Helper lemmas -/

theorem ratio01 (l : List α) (p : α → Bool) :
    0 ≤ ((l.filter p).length : ℚ) / (l.length : ℚ) ∧
      ((l.filter p).length : ℚ) / (l.length : ℚ) ≤ 1 := by
  constructor
  · exact div_nonneg (by positivity) (by positivity)
  · rcases eq_or_ne l [] with rfl | h
    · simp
    · have hl : (0 : ℚ) < (l.length : ℚ) := by
        exact_mod_cast List.length_pos.mpr h
      rw [div_le_one hl]
      exact_mod_cast List.length_filter_le p l

theorem listAvg01 (l : List ℚ) (h : ∀ x ∈ l, 0 ≤ x ∧ x ≤ 1) :
    0 ≤ l.sum / (l.length : ℚ) ∧ l.sum / (l.length : ℚ) ≤ 1 := by
  rcases eq_or_ne l [] with rfl | hne
  · simp
  · have hl : (0 : ℚ) < (l.length : ℚ) := by
      exact_mod_cast List.length_pos.mpr hne
    constructor
    · exact div_nonneg (List.sum_nonneg (fun x hx => (h x hx).1)) hl.le
    · rw [div_le_one hl]
      have := List.sum_le_card_nsmul l 1 (fun x hx => (h x hx).2)
      simpa using this

theorem workflowChecks_mem (recipe : Obj) :
    ∀ x ∈ workflowChecks recipe, 0 ≤ x ∧ x ≤ 1 := by
  intro x hx
  unfold workflowChecks at hx
  repeat split at hx
  all_goals
    simp only [List.cons_append, List.nil_append, List.mem_cons,
      List.not_mem_nil, or_false] at hx
  all_goals rcases hx with rfl | rfl | rfl | hx
  all_goals try norm_num
  all_goals try (subst hx; norm_num)
  all_goals
    try (split at hx <;> simp only [List.mem_singleton] at hx <;> subst hx <;>
      norm_num)
  all_goals exact ratio01 _ _

theorem actionsChecks_mem (recipe : Obj) :
    ∀ x ∈ actionsChecks recipe, 0 ≤ x ∧ x ≤ 1 := by
  intro x hx
  unfold actionsChecks at hx
  split at hx
  · split at hx <;>
      simp only [List.mem_cons, List.not_mem_nil, or_false] at hx
    · rcases hx with rfl | rfl <;> norm_num
    · rcases hx with rfl | rfl
      · norm_num
      · exact ratio01 _ _
  · simp only [List.mem_cons, List.not_mem_nil, or_false] at hx
    rcases hx with rfl | rfl <;> norm_num

theorem selectorsChecks_mem (recipe : Obj) :
    ∀ x ∈ selectorsChecks recipe, 0 ≤ x ∧ x ≤ 1 := by
  intro x hx
  unfold selectorsChecks at hx
  split at hx <;> simp only [List.mem_singleton] at hx <;> subst hx <;> norm_num

theorem policiesChecks_mem (recipe : Obj) :
    ∀ x ∈ policiesChecks recipe, 0 ≤ x ∧ x ≤ 1 := by
  intro x hx
  unfold policiesChecks at hx
  split at hx
  · split at hx <;>
      simp only [List.mem_cons, List.not_mem_nil, or_false] at hx
    · rcases hx with rfl | rfl <;> norm_num
    · rcases hx with rfl | rfl
      · norm_num
      · exact ratio01 _ _
  · simp only [List.mem_cons, List.not_mem_nil, or_false] at hx
    rcases hx with rfl | rfl <;> norm_num

theorem fingerprintsChecks_mem (recipe : Obj) :
    ∀ x ∈ fingerprintsChecks recipe, 0 ≤ x ∧ x ≤ 1 := by
  intro x hx
  unfold fingerprintsChecks at hx
  split at hx <;> simp only [List.mem_singleton] at hx <;> subst hx <;> norm_num

theorem score_schema_validity_01 (recipe : Obj) :
    0 ≤ score_schema_validity recipe ∧ score_schema_validity recipe ≤ 1 := by
  simp only [score_schema_validity]
  split_ifs
  · norm_num
  · apply listAvg01
    intro x hx
    simp only [List.mem_append] at hx
    rcases hx with ((((hx | hx) | hx) | hx) | hx)
    · exact workflowChecks_mem recipe x hx
    · exact actionsChecks_mem recipe x hx
    · exact selectorsChecks_mem recipe x hx
    · exact policiesChecks_mem recipe x hx
    · exact fingerprintsChecks_mem recipe x hx
theorem mapMO_mem {f : α → Option β} :
    ∀ {l : List α} {out : List β}, mapMO f l = some out →
      ∀ b ∈ out, ∃ a ∈ l, f a = some b := by
  intro l
  induction l with
  | nil =>
    intro out h b hb
    simp only [mapMO, Option.some.injEq] at h
    subst h
    simp at hb
  | cons x xs ih =>
    intro out h b hb
    cases hfx : f x with
    | none =>
      simp only [mapMO, hfx] at h
      exact Option.noConfusion h
    | some y =>
      cases hrest : mapMO f xs with
      | none =>
        simp only [mapMO, hfx, hrest] at h
        exact Option.noConfusion h
      | some ys =>
        simp only [mapMO, hfx, hrest, Option.some.injEq] at h
        subst h
        rcases List.mem_cons.mp hb with rfl | hb'
        · exact ⟨x, List.mem_cons_self x xs, hfx⟩
        · obtain ⟨a, ha, hfa⟩ := ih hrest b hb'
          exact ⟨a, List.mem_cons_of_mem x ha, hfa⟩

theorem mapMO_length {f : α → Option β} :
    ∀ {l : List α} {out : List β}, mapMO f l = some out → out.length = l.length := by
  intro l
  induction l with
  | nil =>
    intro out h
    simp only [mapMO, Option.some.injEq] at h
    subst h
    rfl
  | cons x xs ih =>
    intro out h
    cases hfx : f x with
    | none =>
      simp only [mapMO, hfx] at h
      exact Option.noConfusion h
    | some y =>
      cases hrest : mapMO f xs with
      | none =>
        simp only [mapMO, hfx, hrest] at h
        exact Option.noConfusion h
      | some ys =>
        simp only [mapMO, hfx, hrest, Option.some.injEq] at h
        subst h
        simp [ih hrest]

theorem dryStepValidScore_01 (st : Obj) (op : String) :
    0 ≤ dryStepValidScore st op ∧ dryStepValidScore st op ≤ 1 := by
  unfold dryStepValidScore
  dsimp only
  have hratio := ratio01 ((REQUIRED_FIELDS.lookup op).getD []) (fun f =>
    !(objGetD st f .null).isNull || !(objGetD st (camelCase f) .null).isNull)
  refine ⟨?_, ?_⟩ <;>
    (split_ifs <;> (try split) <;> (try split_ifs) <;>
      nlinarith [hratio.1, hratio.2])

theorem dryStepScore_01 (s : Val) (q : ℚ) (h : dryStepScore s = some q) :
    0 ≤ q ∧ q ≤ 1 := by
  unfold dryStepScore at h
  split at h
  · split at h
    · split_ifs at h <;> simp only [Option.some.injEq] at h <;> subst h
      · exact dryStepValidScore_01 _ _
      · norm_num
    · exact Option.noConfusion h
    · exact Option.noConfusion h
    · simp only [Option.some.injEq] at h
      subst h
      norm_num
  · simp only [Option.some.injEq] at h
    subst h
    norm_num

theorem replayStepValue_01 (st : Obj) :
    0 ≤ replayStepValue st ∧ replayStepValue st ≤ 1 := by
  unfold replayStepValue
  dsimp only
  constructor
  · exact le_max_left 0 _
  · apply max_le (by norm_num)
    split_ifs <;> (try split) <;> (try split_ifs) <;> norm_num

theorem replayStepScore_01 (s : Val) (q : ℚ) (h : replayStepScore s = some q) :
    0 ≤ q ∧ q ≤ 1 := by
  unfold replayStepScore at h
  split at h
  · split_ifs at h
    all_goals
      first
      | exact Option.noConfusion h
      | (simp only [Option.some.injEq] at h
         subst h
         exact replayStepValue_01 _)
  · simp only [Option.some.injEq] at h
    subst h
    norm_num

theorem score_dry_run_success_01 (w : Obj) (q : ℚ)
    (h : score_dry_run_success w = some q) : 0 ≤ q ∧ q ≤ 1 := by
  unfold score_dry_run_success at h
  split at h
  · rename_i steps
    split at h
    · simp only [Option.some.injEq] at h
      subst h
      norm_num
    · split at h
      · exact Option.noConfusion h
      · rename_i scores hm
        simp only [Option.some.injEq] at h
        subst h
        split_ifs
        · norm_num
        · apply listAvg01
          intro x hx
          obtain ⟨a, _, hfa⟩ := mapMO_mem hm x hx
          exact dryStepScore_01 a x hfa
  · simp only [Option.some.injEq] at h
    subst h
    norm_num

theorem score_replay_determinism_01 (w : Obj) (q : ℚ)
    (h : score_replay_determinism w = some q) : 0 ≤ q ∧ q ≤ 1 := by
  unfold score_replay_determinism at h
  split at h
  · rename_i steps
    split at h
    · simp only [Option.some.injEq] at h
      subst h
      norm_num
    · split at h
      · exact Option.noConfusion h
      · rename_i scores hm
        simp only [Option.some.injEq] at h
        subst h
        split_ifs
        · norm_num
        · apply listAvg01
          intro x hx
          obtain ⟨a, _, hfa⟩ := mapMO_mem hm x hx
          exact replayStepScore_01 a x hfa
  · simp only [Option.some.injEq] at h
    subst h
    norm_num

theorem score_token_cost_01 (recipe : Obj) (q : ℚ)
    (h : score_token_cost recipe = some q) : 0 ≤ q ∧ q ≤ 1 := by
  unfold score_token_cost at h
  dsimp only at h
  split_ifs at h
  · simp only [Option.some.injEq] at h
    subst h
    norm_num
  · split at h
    · exact Option.noConfusion h
    · simp only [Option.some.injEq] at h
      subst h
      constructor
      · exact le_min (le_max_right _ 0) zero_le_one
      · exact min_le_right _ 1

theorem clamp01_01 (q : ℚ) : 0 ≤ clamp01 q ∧ clamp01 q ≤ 1 := by
  unfold clamp01
  constructor
  · exact le_max_left 0 _
  · exact max_le zero_le_one (min_le_left 1 q)

theorem evaluate_spec (th : ℚ) (r : Val) (ts : Option Val) (er : EvalResult)
    (h : evaluate th r ts = some er) :
    er.total_score = clamp01 (0.45 * er.dry_run_success + 0.25 * er.schema_validity +
        0.20 * er.replay_determinism - 0.10 * er.token_cost) ∧
    er.passed = decide (th ≤ er.total_score) ∧
    (0 ≤ er.schema_validity ∧ er.schema_validity ≤ 1) ∧
    (0 ≤ er.dry_run_success ∧ er.dry_run_success ≤ 1) ∧
    (0 ≤ er.replay_determinism ∧ er.replay_determinism ≤ 1) ∧
    (0 ≤ er.token_cost ∧ er.token_cost ≤ 1) ∧
    (0 ≤ er.total_score ∧ er.total_score ≤ 1) := by
  unfold evaluate at h
  split at h
  · rename_i recipe
    dsimp only at h
    split at h
    · exact Option.noConfusion h
    · rename_i dr hdr
      split at h
      · exact Option.noConfusion h
      · rename_i rd hrd
        split at h
        · exact Option.noConfusion h
        · rename_i tc htc
          split at h
          · exact Option.noConfusion h
          · rename_i tsid htsid
            simp only [Option.some.injEq] at h
            subst h
            exact ⟨rfl, rfl, score_schema_validity_01 recipe,
              score_dry_run_success_01 _ _ hdr,
              score_replay_determinism_01 _ _ hrd,
              score_token_cost_01 _ _ htc, clamp01_01 _⟩
  · exact Option.noConfusion h

/-! ### Claim theorems -/

/-- C1: for every recipe dictionary and optional task spec on which
`EvalHarness.evaluate` returns, the returned `EvalResult` has
`total_score` equal to the weighted combination
0.45·dry_run + 0.25·schema_validity + 0.20·replay_determinism −
0.10·token_cost clamped to [0,1], and `passed` holds exactly when
`total_score` reaches the harness threshold; the default threshold
`PROMOTION_THRESHOLD` is 0.82. -/
theorem evaluate_total_score_formula :
    (∀ (th : ℚ) (recipe : Val) (ts : Option Val) (er : EvalResult),
      evaluate th recipe ts = some er →
        er.total_score = clamp01 (0.45 * er.dry_run_success +
            0.25 * er.schema_validity + 0.20 * er.replay_determinism -
            0.10 * er.token_cost) ∧
        (er.passed = true ↔ th ≤ er.total_score)) ∧
    PROMOTION_THRESHOLD = 41 / 50 := by
  constructor
  · intro th recipe ts er h
    obtain ⟨h1, h2, _⟩ := evaluate_spec th recipe ts er h
    refine ⟨h1, ?_⟩
    rw [h2]
    exact decide_eq_true_iff
  · norm_num [PROMOTION_THRESHOLD]

/-- C1 witness: the formula and threshold equivalence instantiated on the
high-quality recipe at the default threshold. -/
theorem evaluate_total_score_formula_witness :
    ((evaluate PROMOTION_THRESHOLD (.obj highQualityRecipe) none).map (fun er =>
      decide (er.total_score = clamp01 (0.45 * er.dry_run_success +
          0.25 * er.schema_validity + 0.20 * er.replay_determinism -
          0.10 * er.token_cost) ∧
        (er.passed = true ↔ PROMOTION_THRESHOLD ≤ er.total_score)))) = some true := by
  rcases hev : evaluate PROMOTION_THRESHOLD (.obj highQualityRecipe) none with _ | er
  · have hs : (evaluate PROMOTION_THRESHOLD (.obj highQualityRecipe) none).isSome = true := by
      decide
    rw [hev] at hs
    exact Bool.noConfusion hs
  · have h := (evaluate_total_score_formula.1 PROMOTION_THRESHOLD
      (.obj highQualityRecipe) none er hev)
    simp only [Option.map_some']
    exact congrArg some (decide_eq_true h)

set_option maxRecDepth 8000 in
/-- C7: every sub-score a scoring function returns lies in [0,1], and every
`EvalResult` that `evaluate` returns has all four sub-scores and the total
score in [0,1]; on `clampedRecipe` the raw weighted sum is negative yet the
total score is still 0, showing the clamp at work. -/
theorem scores_within_unit_interval :
    (∀ recipe : Obj, 0 ≤ score_schema_validity recipe ∧
      score_schema_validity recipe ≤ 1) ∧
    (∀ (w : Obj) (q : ℚ), score_dry_run_success w = some q → 0 ≤ q ∧ q ≤ 1) ∧
    (∀ (w : Obj) (q : ℚ), score_replay_determinism w = some q → 0 ≤ q ∧ q ≤ 1) ∧
    (∀ (r : Obj) (q : ℚ), score_token_cost r = some q → 0 ≤ q ∧ q ≤ 1) ∧
    (∀ (th : ℚ) (r : Val) (ts : Option Val) (er : EvalResult),
      evaluate th r ts = some er →
        (0 ≤ er.schema_validity ∧ er.schema_validity ≤ 1) ∧
        (0 ≤ er.dry_run_success ∧ er.dry_run_success ≤ 1) ∧
        (0 ≤ er.replay_determinism ∧ er.replay_determinism ≤ 1) ∧
        (0 ≤ er.token_cost ∧ er.token_cost ≤ 1) ∧
        (0 ≤ er.total_score ∧ er.total_score ≤ 1)) ∧
    ((evaluate PROMOTION_THRESHOLD (.obj clampedRecipe) none).map (fun er =>
        (er.total_score,
         decide (0.45 * er.dry_run_success + 0.25 * er.schema_validity +
           0.20 * er.replay_determinism - 0.10 * er.token_cost < 0))) =
      some (0, true)) := by
  refine ⟨score_schema_validity_01, score_dry_run_success_01,
    score_replay_determinism_01, score_token_cost_01, ?_, by decide⟩
  intro th r ts er h
  obtain ⟨_, _, h3, h4, h5, h6, h7⟩ := evaluate_spec th r ts er h
  exact ⟨h3, h4, h5, h6, h7⟩

/-- C7 witness: the bounds instantiated on the high-quality recipe. -/
theorem scores_within_unit_interval_witness :
    ((evaluate PROMOTION_THRESHOLD (.obj highQualityRecipe) none).map (fun er =>
      decide (0 ≤ er.total_score ∧ er.total_score ≤ 1 ∧
        0 ≤ er.token_cost ∧ er.token_cost ≤ 1))) = some true := by
  rcases hev : evaluate PROMOTION_THRESHOLD (.obj highQualityRecipe) none with _ | er
  · have hs : (evaluate PROMOTION_THRESHOLD (.obj highQualityRecipe) none).isSome = true := by
      decide
    rw [hev] at hs
    exact Bool.noConfusion hs
  · obtain ⟨_, _, _, ⟨h6a, h6b⟩, ⟨h7a, h7b⟩⟩ :=
      (scores_within_unit_interval.2.2.2.2.1 PROMOTION_THRESHOLD
        (.obj highQualityRecipe) none er hev)
    simp only [Option.map_some']
    exact congrArg some (decide_eq_true ⟨h7a, h7b, h6a, h6b⟩)

/-- C9: `average_score` of an empty result list is 0, of a non-empty list
it is the arithmetic mean of the total scores, and in particular the
average of `[a, a]` is `a`'s total score. -/
theorem average_score_mean :
    average_score [] = 0 ∧
    (∀ rs : List EvalResult, rs ≠ [] →
      average_score rs = (rs.map EvalResult.total_score).sum / (rs.length : ℚ)) ∧
    (∀ a : EvalResult, average_score [a, a] = a.total_score) := by
  refine ⟨rfl, ?_, ?_⟩
  · intro rs hrs
    unfold average_score
    rw [if_neg (by simpa [List.isEmpty_iff] using hrs)]
  · intro a
    unfold average_score
    simp only [List.isEmpty_cons, List.map_cons, List.map_nil, List.sum_cons,
      List.sum_nil, List.length_cons, List.length_nil, if_false, Bool.false_eq_true]
    push_cast
    ring

/-- C9 witness: the mean property at a concrete evaluation result. -/
theorem average_score_mean_witness :
    average_score [(⟨1, 1, 1, 0, 0.9, true, []⟩ : EvalResult),
        (⟨1, 1, 1, 0, 0.9, true, []⟩ : EvalResult)] = (0.9 : ℚ) := by
  exact average_score_mean.2.2 _

/-- C10: whenever `evaluate_batch` returns, it returns one result per
recipe, the i-th being the evaluation of the i-th recipe against the i-th
task spec when one exists and against no spec otherwise; task specs beyond
the recipe count are ignored. -/
theorem evaluate_batch_pairing :
    (∀ (th : ℚ) (recipes specs : List Val) (rs : List EvalResult),
      evaluate_batch th recipes specs = some rs →
        rs.length = recipes.length ∧
        ∀ (i : ℕ) (hi : i < recipes.length),
          evaluate th (recipes.get ⟨i, hi⟩) (specs.get? i) = rs.get? i) ∧
    (∀ (th : ℚ) (recipes specs extra : List Val),
      recipes.length ≤ specs.length →
        evaluate_batch th recipes (specs ++ extra) = evaluate_batch th recipes specs) := by
  constructor
  · intro th recipes
    induction recipes with
    | nil =>
      intro specs rs h
      simp only [evaluate_batch, Option.some.injEq] at h
      subst h
      exact ⟨rfl, fun i hi => absurd hi (by simp)⟩
    | cons r rest ih =>
      intro specs rs h
      have hhead : specs.get? 0 = specs.head? := by cases specs <;> rfl
      have htail : ∀ n : ℕ, specs.tail.get? n = specs.get? (n + 1) := by
        intro n
        cases specs <;> rfl
      cases hev : evaluate th r specs.head? with
      | none =>
        simp only [evaluate_batch, hev] at h
        exact Option.noConfusion h
      | some er =>
        cases hb : evaluate_batch th rest specs.tail with
        | none =>
          simp only [evaluate_batch, hev, hb] at h
          exact Option.noConfusion h
        | some tl =>
          simp only [evaluate_batch, hev, hb, Option.some.injEq] at h
          subst h
          obtain ⟨hlen, hidx⟩ := ih specs.tail tl hb
          refine ⟨by simp [hlen], ?_⟩
          intro i hi
          cases i with
          | zero =>
            rw [hhead]
            exact hev
          | succ n =>
            have hn : n < rest.length := by simpa using hi
            have hr := hidx n hn
            rw [← htail n]
            exact hr
  · intro th recipes
    induction recipes with
    | nil =>
      intro specs extra _
      rfl
    | cons r rest ih =>
      intro specs extra h
      cases specs with
      | nil => simp at h
      | cons s ss =>
        have h' : rest.length ≤ ss.length := by simpa using h
        simp only [evaluate_batch, List.cons_append, List.head?_cons, List.tail_cons]
        rw [ih ss extra h']

/-- C10 witness: batch evaluation of one recipe with no specs. -/
theorem evaluate_batch_pairing_witness :
    ((evaluate_batch PROMOTION_THRESHOLD [.obj highQualityRecipe] []).map
      List.length) = some 1 := by
  rcases hb : evaluate_batch PROMOTION_THRESHOLD [.obj highQualityRecipe] [] with _ | rs
  · have hs : (evaluate_batch PROMOTION_THRESHOLD [.obj highQualityRecipe] []).isSome = true := by
      decide
    rw [hb] at hs
    exact Bool.noConfusion hs
  · have h := (evaluate_batch_pairing.1 PROMOTION_THRESHOLD
      [.obj highQualityRecipe] [] rs hb).1
    simp only [Option.map_some']
    rw [h]
    rfl

/-- C5: the dry-run scoring table evaluated on concrete workflows.  A step
with the unrecognized string op scores 0 and an empty step list scores 0,
and per-step partial credit averages as claimed (a complete `goto` step
earns 1.0, a `goto` step missing `args` earns 0.4 + 0 + 0.2 + 0 = 0.6, so
the two-step workflow averages 0.8) — but a step whose `op` is a list
makes `score_dry_run_success` raise `TypeError` (modelled as `none`)
instead of scoring the step 0, because `op in VALID_OPS` hashes the op. -/
theorem dry_run_scoring_table :
    score_dry_run_success unhashableOpWorkflow = none ∧
    score_dry_run_success invalidOpWorkflow = some 0 ∧
    score_dry_run_success twoGotoWorkflow = some (4 / 5) ∧
    score_dry_run_success [("steps", .arr [])] = some 0 ∧
    score_dry_run_success [] = some 0 ∧
    dryStepValidScore [("id", .str "open"), ("op", .str "goto"),
      ("args", .obj [("url", .str "https://x.com")])] "goto" = 1 ∧
    dryStepValidScore [("id", .str "open2"), ("op", .str "goto")] "goto" = 3 / 5 := by
  refine ⟨rfl, by decide, by decide, by decide, by decide, by decide, by decide⟩

/-- C8: the scoring functions are not total over structurally-typed input:
`score_token_cost` raises `TypeError` (here `none`) when `workflow.steps`
is the truthy number 1 (it runs `len(steps)` without the
`isinstance(steps, list)` guard its three siblings have), and `evaluate`
propagates that raise; the set-membership tests of the dry-run and replay
scorers likewise raise on a step whose `op` is a list or dict.  The three
sibling scorers return a defined score on the same recipe. -/
theorem scoring_totality_failure :
    score_token_cost stepsNotSizedRecipe = none ∧
    evaluate PROMOTION_THRESHOLD (.obj stepsNotSizedRecipe) none = none ∧
    score_dry_run_success unhashableOpWorkflow = none ∧
    score_replay_determinism [("steps", .arr [.obj [("op", .obj [])]])] = none ∧
    score_schema_validity stepsNotSizedRecipe = 1 / 10 ∧
    score_dry_run_success [("steps", .num 1)] = some 0 ∧
    score_replay_determinism [("steps", .num 1)] = some 0 := by
  refine ⟨rfl, rfl, rfl, rfl, by decide, by decide, by decide⟩

/-- C6 counterexample: on the high-quality scenario recipe the token-cost
sub-score is 0.08, which is not greater than 0.5, refuting the claim that
every one of the four sub-scores exceeds 0.5 there. -/
theorem high_quality_token_cost_small :
    (evaluate PROMOTION_THRESHOLD (.obj highQualityRecipe) none).map
        EvalResult.token_cost = some (2 / 25) ∧ ¬((1 : ℚ) / 2 < 2 / 25) := by
  constructor
  · decide
  · norm_num

/-- C6 amended: on the high-quality scenario recipe the total score is
0.892 > 0.5 and the three quality sub-scores are all 1 > 0.5, while the
token-cost sub-score (where lower is better) is 0.08 < 0.5, and the
recipe passes the default threshold. -/
theorem high_quality_scenario_scores :
    (evaluate PROMOTION_THRESHOLD (.obj highQualityRecipe) none).map (fun er =>
      (er.schema_validity, er.dry_run_success, er.replay_determinism,
       er.token_cost, er.total_score, er.passed)) =
      some (1, 1, 1, 2 / 25, 223 / 250, true) ∧
    ((1 : ℚ) / 2 < 223 / 250 ∧ (1 : ℚ) / 2 < 1 ∧ (2 : ℚ) / 25 < 1 / 2) := by
  constructor
  · decide
  · norm_num

theorem objLookup_objSet_self (o : Obj) (k : String) (v : Val) :
    objLookup (objSet o k v) k = some v := by
  induction o with
  | nil => simp [objSet, objLookup]
  | cons kv rest ih =>
    obtain ⟨k', v'⟩ := kv
    unfold objSet
    split_ifs with hk
    · subst hk
      simp [objLookup]
    · simpa [objLookup, hk] using ih

theorem objLookup_objSet_ne (o : Obj) (k k' : String) (v : Val) (h : k ≠ k') :
    objLookup (objSet o k v) k' = objLookup o k' := by
  induction o with
  | nil => simp [objSet, objLookup, h]
  | cons kv rest ih =>
    obtain ⟨k0, v0⟩ := kv
    unfold objSet
    split_ifs with hk
    · subst hk
      simp [objLookup, h]
    · simp only [objLookup]
      split_ifs with h0
      · rfl
      · exact ih

theorem versionOfStem_self (pid : String) : versionOfStem pid pid = none := by
  unfold versionOfStem
  rw [if_neg]
  intro hpre
  have hp : (pid ++ "_v").toList <+: pid.toList := by
    exact List.isPrefixOf_iff_prefix.mp hpre
  have hlen := hp.length_le
  have htl : (pid ++ "_v").toList.length = pid.toList.length + 2 := by
    show (pid ++ "_v").data.length = pid.data.length + 2
    rw [String.data_append]
    simp
  omega

theorem filterMapStems_objSet (s : Store) (pid : String) (v : Val) :
    (objSet s pid v).filterMap (fun kv => versionOfStem pid kv.1) =
      s.filterMap (fun kv => versionOfStem pid kv.1) := by
  induction s with
  | nil => simp [objSet, List.filterMap_cons, versionOfStem_self]
  | cons kv rest ih =>
    obtain ⟨k0, v0⟩ := kv
    unfold objSet
    split_ifs with hk
    · subst hk
      rfl
    · simp only [List.filterMap_cons]
      rw [ih]

theorem listVersions_save (s : Store) (pid : String) (v : Val) :
    ProfilesRepo.listVersions (ProfilesRepo.save s pid v) pid =
      ProfilesRepo.listVersions s pid := by
  unfold ProfilesRepo.listVersions ProfilesRepo.save
  rw [filterMapStems_objSet]

theorem mem_insertNat {n m : ℕ} : ∀ {l : List ℕ}, m ∈ insertNat n l ↔ m = n ∨ m ∈ l := by
  intro l
  induction l with
  | nil => simp [insertNat]
  | cons x xs ih =>
    unfold insertNat
    split_ifs with hx
    · simp
    · simp only [List.mem_cons, ih]
      tauto

theorem mem_insSortNat {m : ℕ} : ∀ {l : List ℕ}, m ∈ insSortNat l ↔ m ∈ l := by
  intro l
  induction l with
  | nil => simp [insSortNat]
  | cons x xs ih =>
    unfold insSortNat
    rw [mem_insertNat]
    simp [ih]

theorem le_maxNatList {m : ℕ} : ∀ {l : List ℕ}, m ∈ l → m ≤ maxNatList l := by
  intro l
  induction l with
  | nil => intro h; simp at h
  | cons x xs ih =>
    intro h
    rcases List.mem_cons.mp h with rfl | h'
    · exact le_max_left _ _
    · exact le_trans (ih h') (le_max_right _ _)

theorem foldl_max_append (l : List ℚ) (x a : ℚ) :
    (l ++ [x]).foldl max a = max (l.foldl max a) x := by
  rw [List.foldl_append]
  rfl

theorem le_foldl_max_init (a : ℚ) : ∀ (l : List ℚ), a ≤ l.foldl max a := by
  intro l
  induction l generalizing a with
  | nil => exact le_refl a
  | cons x xs ih => exact le_trans (le_max_left a x) (ih (max a x))

theorem foldl_max_le (B : ℚ) :
    ∀ (l : List ℚ) (a : ℚ), a ≤ B → (∀ x ∈ l, x ≤ B) → l.foldl max a ≤ B := by
  intro l
  induction l with
  | nil => intro a ha _; exact ha
  | cons x xs ih =>
    intro a ha h
    exact ih (max a x) (max_le ha (h x (List.mem_cons_self x xs)))
      (fun y hy => h y (List.mem_cons_of_mem x hy))

theorem scoresMax_append_one (history : List RoundResult) (r : RoundResult) :
    scoresMax (history ++ [r]) = max (scoresMax history) r.score := by
  unfold scoresMax
  rw [List.map_append]
  exact foldl_max_append _ _ _

theorem scoresMax_nonneg (history : List RoundResult) : 0 ≤ scoresMax history :=
  le_foldl_max_init 0 _

theorem scoresMax_le (history : List RoundResult) (B : ℚ) (hB : 0 ≤ B)
    (h : ∀ r ∈ history, r.score ≤ B) : scoresMax history ≤ B := by
  unfold scoresMax
  apply foldl_max_le B _ 0 hB
  intro x hx
  obtain ⟨r, hr, rfl⟩ := List.mem_map.mp hx
  exact h r hr

theorem average_score_nonneg (rs : List EvalResult)
    (h : ∀ er ∈ rs, 0 ≤ er.total_score) : 0 ≤ average_score rs := by
  unfold average_score
  split_ifs
  · exact le_refl 0
  · apply div_nonneg _ (by positivity)
    apply List.sum_nonneg
    intro x hx
    obtain ⟨er, her, rfl⟩ := List.mem_map.mp hx
    exact h er her

theorem evalRound_mem {th : ℚ} {g : Val → Val → Option Val} {profile : Val} :
    ∀ {specs : List Val} {pairs : List (EvalResult × Val)},
      evalRound th g profile specs = some pairs →
      ∀ p ∈ pairs, ∃ spec recipe, g profile spec = some recipe ∧
        evaluate th recipe (some spec) = some p.1 := by
  intro specs
  induction specs with
  | nil =>
    intro pairs h p hp
    simp only [evalRound, Option.some.injEq] at h
    subst h
    simp at hp
  | cons spec rest ih =>
    intro pairs h p hp
    cases hg : g profile spec with
    | none =>
      simp only [evalRound, hg] at h
      exact Option.noConfusion h
    | some recipe =>
      cases hev : evaluate th recipe (some spec) with
      | none =>
        simp only [evalRound, hg, hev] at h
        exact Option.noConfusion h
      | some res =>
        cases hrest : evalRound th g profile rest with
        | none =>
          simp only [evalRound, hg, hev, hrest] at h
          exact Option.noConfusion h
        | some tl =>
          simp only [evalRound, hg, hev, hrest, Option.some.injEq] at h
          subst h
          rcases List.mem_cons.mp hp with rfl | hp'
          · exact ⟨spec, recipe, hg, hev⟩
          · exact ih hrest p hp'

theorem optimizeLoop_invariant (th : ℚ) (genOverride : Option (Val → Val → Option Val))
    (reflector : Val → EvalResult → Val → Option Val) (pid : String) (specs : List Val) :
    ∀ (fuel roundNum : ℕ) (profile : Val) (store : Store) (history : List RoundResult)
      (best : ℚ) (bestR : Val) (out : LoopOut),
      optimizeLoop th genOverride reflector pid specs fuel roundNum profile store
          history best bestR = some out →
      best = scoresMax history →
      (∀ r ∈ history, r.reflection ≠ none ∧ r.score < th) →
      ((best = 0 ∧ bestR = .obj []) ∨
        ∃ r ∈ history, r.score = best ∧ r.recipe = bestR) →
      out.best_score = scoresMax out.history ∧
      (∀ r ∈ out.history, (r.reflection = none ↔ th ≤ r.score)) ∧
      (∀ r ∈ out.history.dropLast, r.reflection ≠ none) ∧
      ((out.best_score = 0 ∧ out.best_recipe = .obj []) ∨
        ∃ r ∈ out.history, r.score = out.best_score ∧ r.recipe = out.best_recipe) ∧
      ProfilesRepo.listVersions out.store pid = ProfilesRepo.listVersions store pid ∧
      out.history.length ≤ history.length + fuel := by
  intro fuel
  induction fuel with
  | zero =>
    intro roundNum profile store history best bestR out h hbest hhist hprov
    simp only [optimizeLoop, Option.some.injEq] at h
    subst h
    refine ⟨hbest, ?_, ?_, hprov, rfl, by simp⟩
    · intro r hr
      obtain ⟨h1, h2⟩ := hhist r hr
      exact ⟨fun he => absurd he h1, fun hle => absurd h2 (not_lt.mpr hle)⟩
    · intro r hr
      exact (hhist r (List.dropLast_subset _ hr)).1
  | succ fuel ih =>
    intro roundNum profile store history best bestR out h hbest hhist hprov
    cases hgen : chooseGenerator genOverride profile with
    | none =>
      simp only [optimizeLoop, hgen] at h
      exact Option.noConfusion h
    | some generator =>
      cases hpair : evalRound th generator profile specs with
      | none =>
        simp only [optimizeLoop, hgen, hpair] at h
        exact Option.noConfusion h
      | some pairs =>
        cases hbe : bestByScore pairs with
        | none =>
          simp only [optimizeLoop, hgen, hpair, hbe] at h
          exact Option.noConfusion h
        | some be =>
          have havg0 : 0 ≤ average_score (pairs.map Prod.fst) := by
            apply average_score_nonneg
            intro er her
            obtain ⟨p, hp, rfl⟩ := List.mem_map.mp her
            obtain ⟨spec, recipe, _, hev⟩ := evalRound_mem hpair p hp
            exact ((evaluate_spec th recipe (some spec) p.1 hev).2.2.2.2.2.2).1
          by_cases hth : th ≤ average_score (pairs.map Prod.fst)
          · simp only [optimizeLoop, hgen, hpair, hbe, if_pos hth,
              Option.some.injEq] at h
            subst h
            refine ⟨?_, ?_, ?_, ?_, rfl, ?_⟩
            · rw [scoresMax_append_one]
              show average_score (pairs.map Prod.fst) =
                max (scoresMax history) _
              rw [max_eq_right]
              apply scoresMax_le _ _ havg0
              intro r hr
              exact le_of_lt (lt_of_lt_of_le (hhist r hr).2 hth)
            · intro r hr
              rcases List.mem_append.mp hr with hr' | hr'
              · obtain ⟨h1, h2⟩ := hhist r hr'
                exact ⟨fun he => absurd he h1, fun hle => absurd h2 (not_lt.mpr hle)⟩
              · rcases List.mem_singleton.mp hr' with rfl
                exact ⟨fun _ => hth, fun _ => rfl⟩
            · intro r hr
              rw [List.dropLast_concat] at hr
              exact (hhist r hr).1
            · right
              refine ⟨_, List.mem_append_right _ (List.mem_singleton_self _), rfl, rfl⟩
            · simp only [List.length_append, List.length_singleton]
              omega
          · cases hrefl : reflector profile be.1 be.2 with
            | none =>
              simp only [optimizeLoop, hgen, hpair, hbe, if_neg hth, hrefl] at h
              exact Option.noConfusion h
            | some profile1 =>
              cases hnote : reflectionNote roundNum
                  (average_score (pairs.map Prod.fst)) profile1 with
              | none =>
                simp only [optimizeLoop, hgen, hpair, hbe, if_neg hth, hrefl,
                  hnote] at h
                exact Option.noConfusion h
              | some note =>
                simp only [optimizeLoop, hgen, hpair, hbe, if_neg hth, hrefl,
                  hnote] at h
                have hltth : average_score (pairs.map Prod.fst) < th :=
                  lt_of_not_ge hth
                have hbest' : (if best < average_score (pairs.map Prod.fst)
                      then average_score (pairs.map Prod.fst) else best) =
                    scoresMax (history ++
                      [⟨roundNum, average_score (pairs.map Prod.fst), be.1, be.2,
                        some note⟩]) := by
                  rw [scoresMax_append_one, ← hbest]
                  rcases lt_or_ge best (average_score (pairs.map Prod.fst)) with
                    hlt | hge
                  · rw [if_pos hlt, max_eq_right hlt.le]
                  · rw [if_neg (not_lt.mpr hge), max_eq_left hge]
                have hhist' : ∀ r ∈ history ++
                    [(⟨roundNum, average_score (pairs.map Prod.fst), be.1, be.2,
                      some note⟩ : RoundResult)],
                    r.reflection ≠ none ∧ r.score < th := by
                  intro r hr
                  rcases List.mem_append.mp hr with hr' | hr'
                  · exact hhist r hr'
                  · rcases List.mem_singleton.mp hr' with rfl
                    exact ⟨by simp, hltth⟩
                have hprov' : ((if best < average_score (pairs.map Prod.fst)
                        then average_score (pairs.map Prod.fst) else best) = 0 ∧
                      (if best < average_score (pairs.map Prod.fst)
                        then be.2 else bestR) = .obj []) ∨
                    ∃ r ∈ history ++
                      [(⟨roundNum, average_score (pairs.map Prod.fst), be.1, be.2,
                        some note⟩ : RoundResult)],
                      r.score = (if best < average_score (pairs.map Prod.fst)
                        then average_score (pairs.map Prod.fst) else best) ∧
                      r.recipe = (if best < average_score (pairs.map Prod.fst)
                        then be.2 else bestR) := by
                  rcases lt_or_ge best (average_score (pairs.map Prod.fst)) with
                    hlt | hge
                  · right
                    rw [if_pos hlt, if_pos hlt]
                    exact ⟨_, List.mem_append_right _ (List.mem_singleton_self _),
                      rfl, rfl⟩
                  · rw [if_neg (not_lt.mpr hge), if_neg (not_lt.mpr hge)]
                    rcases hprov with hpz | ⟨r, hr, h1, h2⟩
                    · exact Or.inl hpz
                    · exact Or.inr ⟨r, List.mem_append_left _ hr, h1, h2⟩
                obtain ⟨o1, o2, o2b, o3, o4, o5⟩ := ih (roundNum + 1) profile1
                  (ProfilesRepo.save store pid profile1) _ _ _ out h hbest'
                  hhist' hprov'
                refine ⟨o1, o2, o2b, o3, ?_, ?_⟩
                · rw [o4, listVersions_save]
                · simp only [List.length_append, List.length_singleton] at o5
                  omega

theorem optimizeCore_inversion (th : ℚ) (gen : Option (Val → Val → Option Val))
    (refl : Val → EvalResult → Val → Option Val) (ss : Store) (pid : String)
    (mr : ℕ) (profile0 : Val) (store0 : Store) (res : OptimizationResult)
    (s' : Store)
    (h : optimizeCore th gen refl ss pid mr profile0 store0 = some (res, s')) :
    ∃ (specsList : List Val) (out : LoopOut),
      optimizeLoop th gen refl pid specsList mr 1 profile0 store0 [] 0 (.obj []) =
        some out ∧
      res.history = out.history ∧
      res.rounds = out.history.length ∧
      res.final_score = out.best_score ∧
      (res.promoted = true ↔ th ≤ out.best_score) ∧
      ((¬ th ≤ out.best_score ∧ res.promoted = false ∧
          res.promoted_version = none ∧ s' = out.store) ∨
       (th ≤ out.best_score ∧ res.promoted = true ∧
        ∃ (p : Obj) (profile1 : Val) (store1 : Store) (v : ℕ),
          out.profile = .obj p ∧
          profile1 = .obj (objSet (objSet p "best_recipe" out.best_recipe)
            "best_score" (.num out.best_score)) ∧
          store1 = ProfilesRepo.save out.store pid profile1 ∧
          v = maxNatList (ProfilesRepo.listVersions store1 pid) + 1 ∧
          res.promoted_version = some v ∧
          ProfilesRepo.promote store1 pid v = some s')) := by
  unfold optimizeCore at h
  split at h
  · exact Option.noConfusion h
  · rename_i specs0 hspecs
    try dsimp only at h
    split at h
    · exact Option.noConfusion h
    · rename_i out hloop
      split_ifs at h with hth
      · split at h
        · rename_i p hp
          try dsimp only at h
          split at h
          · exact Option.noConfusion h
          · rename_i store2 hpromote
            simp only [Option.some.injEq, Prod.mk.injEq] at h
            obtain ⟨hres, hs2⟩ := h
            subst hres
            subst hs2
            refine ⟨_, out, hloop, rfl, rfl, rfl, ?_, Or.inr ⟨hth, rfl,
              p, _, _, _, hp, rfl, rfl, rfl, rfl, hpromote⟩⟩
            simpa using hth
        · exact Option.noConfusion h
      · simp only [Option.some.injEq, Prod.mk.injEq] at h
        obtain ⟨hres, hs2⟩ := h
        subst hres
        subst hs2
        refine ⟨_, out, hloop, rfl, rfl, rfl, ?_, Or.inl ⟨hth, rfl, rfl, rfl⟩⟩
        constructor
        · intro hfalse
          exact absurd hfalse (by simp)
        · intro hle
          exact absurd hle hth

theorem optimize_inversion (th : ℚ) (gen : Option (Val → Val → Option Val))
    (refl : Val → EvalResult → Val → Option Val) (ps ss : Store) (pid : String)
    (mr : ℕ) (res : OptimizationResult) (s' : Store)
    (h : optimize th gen refl ps ss pid mr = some (res, s')) :
    ∃ (profile0 : Val) (store0 : Store),
      optimizeCore th gen refl ss pid mr profile0 store0 = some (res, s') ∧
      ProfilesRepo.listVersions store0 pid = ProfilesRepo.listVersions ps pid := by
  unfold optimize at h
  split at h
  · exact ⟨_, ps, h, rfl⟩
  · exact ⟨_, _, h, listVersions_save ps pid _⟩

theorem verKey_ne (pid : String) (v : ℕ) : pid ++ "_v" ++ toString v ≠ pid := by
  intro hcontra
  have hlen := congrArg String.length hcontra
  rw [String.length_append, String.length_append] at hlen
  have h2 : String.length "_v" = 2 := rfl
  omega

/-- C4: `optimize` runs at most `max_rounds` rounds, `rounds` equals the
history length, a history entry carries no reflection exactly when its
round's average score met the threshold, and every round before the last
carries a reflection — a threshold-meeting round stops the loop; with
threshold 0.999 and the default generator, three rounds run without
promotion and the first entry carries a reflection note. -/
theorem optimize_round_termination :
    (∀ (th : ℚ) (gen : Option (Val → Val → Option Val))
        (refl : Val → EvalResult → Val → Option Val) (ps ss : Store)
        (pid : String) (mr : ℕ) (res : OptimizationResult) (s' : Store),
      optimize th gen refl ps ss pid mr = some (res, s') →
        res.rounds = res.history.length ∧ res.history.length ≤ mr ∧
        (∀ r ∈ res.history, (r.reflection = none ↔ th ≤ r.score)) ∧
        ∀ r ∈ res.history.dropLast, r.reflection ≠ none) ∧
    ((optimize 0.999 none _default_reflector [] [] "p" 3).map (fun pr =>
      (pr.1.promoted, pr.1.rounds, pr.1.history.length,
       pr.1.history.head?.map (fun r => r.reflection.isSome))) =
      some (false, 3, 3, some true)) := by
  constructor
  · intro th gen refl ps ss pid mr res s' h
    obtain ⟨p0, st0, hcore, _⟩ :=
      optimize_inversion th gen refl ps ss pid mr res s' h
    obtain ⟨specsList, out, hloop, hhist, hrounds, _, _, _⟩ :=
      optimizeCore_inversion th gen refl ss pid mr p0 st0 res s' hcore
    obtain ⟨_, o2, o2b, _, _, o5⟩ := optimizeLoop_invariant th gen refl pid
      specsList mr 1 p0 st0 [] 0 (.obj []) out hloop rfl (by simp)
      (Or.inl ⟨rfl, rfl⟩)
    rw [hhist, hrounds]
    exact ⟨rfl, by simpa using o5, o2, o2b⟩
  · decide

/-- C4 witness: the round bound and history-length equality at the
concrete threshold-0.999 run. -/
theorem optimize_round_termination_witness :
    ((optimize 0.999 none _default_reflector [] [] "p" 3).map (fun pr =>
      decide (pr.1.rounds = pr.1.history.length ∧ pr.1.history.length ≤ 3))) =
      some true := by
  rcases hopt : optimize 0.999 none _default_reflector [] [] "p" 3 with _ | pr
  · have hs : (optimize 0.999 none _default_reflector [] [] "p" 3).isSome = true := by
      decide
    rw [hopt] at hs
    exact Bool.noConfusion hs
  · obtain ⟨h1, h2, _⟩ := optimize_round_termination.1 0.999 none
      _default_reflector [] [] "p" 3 pr.1 pr.2 hopt
    simp only [Option.map_some']
    exact congrArg some (decide_eq_true ⟨h1, h2⟩)

/-- C2: whenever an `optimize` run mints a version, the minted version is
the maximum of the versions existing in the initial store plus one (hence
strictly greater than every existing version); with threshold 0.01 on a
fresh profile the first run promotes with version 1 and an immediately
following run against the resulting store promotes with version 2. -/
theorem promoted_version_monotonic :
    (∀ (th : ℚ) (gen : Option (Val → Val → Option Val))
        (refl : Val → EvalResult → Val → Option Val) (ps ss : Store)
        (pid : String) (mr : ℕ) (res : OptimizationResult) (s' : Store),
      optimize th gen refl ps ss pid mr = some (res, s') →
      ∀ v : ℕ, res.promoted_version = some v →
        v = maxNatList (ProfilesRepo.listVersions ps pid) + 1 ∧
        ∀ w ∈ ProfilesRepo.listVersions ps pid, w < v) ∧
    ((optimize (1 / 100) none _default_reflector [] [] "p" 1).map (fun pr =>
      (pr.1.promoted, pr.1.promoted_version)) = some (true, some 1)) ∧
    (((optimize (1 / 100) none _default_reflector [] [] "p" 1).bind (fun pr =>
      optimize (1 / 100) none _default_reflector pr.2 [] "p" 1)).map (fun pr =>
      (pr.1.promoted, pr.1.promoted_version)) = some (true, some 2)) := by
  refine ⟨?_, by decide, by decide⟩
  intro th gen refl ps ss pid mr res s' h v hv
  obtain ⟨p0, st0, hcore, hst0⟩ :=
    optimize_inversion th gen refl ps ss pid mr res s' h
  obtain ⟨specsList, out, hloop, _, _, _, _, hdisj⟩ :=
    optimizeCore_inversion th gen refl ss pid mr p0 st0 res s' hcore
  obtain ⟨_, _, _, _, o4, _⟩ := optimizeLoop_invariant th gen refl pid specsList
    mr 1 p0 st0 [] 0 (.obj []) out hloop rfl (by simp) (Or.inl ⟨rfl, rfl⟩)
  rcases hdisj with ⟨_, _, hnone, _⟩ |
    ⟨_, _, p, profile1, store1, v', hp, hprofile1, hstore1, hv', hpv, _⟩
  · rw [hnone] at hv
    exact Option.noConfusion hv
  · rw [hpv] at hv
    injection hv with hv
    subst hv
    have hlv : ProfilesRepo.listVersions store1 pid =
        ProfilesRepo.listVersions ps pid := by
      rw [hstore1, listVersions_save, o4, hst0]
    rw [hlv] at hv'
    refine ⟨hv', ?_⟩
    intro w hw
    have hle : w ≤ maxNatList (ProfilesRepo.listVersions ps pid) :=
      le_maxNatList hw
    omega

/-- C2 witness: the minted version equals max existing + 1 at the concrete
threshold-0.01 run on an empty store. -/
theorem promoted_version_monotonic_witness :
    ((optimize (1 / 100) none _default_reflector [] [] "p" 1).map (fun pr =>
      decide (pr.1.promoted_version =
        some (maxNatList (ProfilesRepo.listVersions ([] : Store) "p") + 1)))) =
      some true := by
  rcases hopt : optimize (1 / 100) none _default_reflector [] [] "p" 1 with _ | pr
  · have hs : (optimize (1 / 100) none _default_reflector [] [] "p" 1).isSome = true := by
      decide
    rw [hopt] at hs
    exact Bool.noConfusion hs
  · have hpv : pr.1.promoted_version = some 1 := by
      have hmap : (optimize (1 / 100) none _default_reflector [] [] "p" 1).map
          (fun pr => pr.1.promoted_version) = some (some 1) := by decide
      rw [hopt] at hmap
      simpa using hmap
    obtain ⟨hval, _⟩ := (promoted_version_monotonic.1 (1 / 100) none
      _default_reflector [] [] "p" 1 pr.1 pr.2 hopt) 1 hpv
    simp only [Option.map_some']
    refine congrArg some (decide_eq_true ?_)
    rw [hpv, ← hval]

/-- C3: across an `optimize` run the reported final score is the maximum
score over all recorded rounds (the best ever seen, 0 if no round ran);
promotion happens exactly when that best-ever score meets the threshold;
when it does, the final store holds at key `profile_id` a profile carrying
`best_score` equal to the final score and `best_recipe` equal to a recipe
from a round that achieved it (the initial `{}` only in the degenerate
no-round case), and holds the minted snapshot at key
`{profile_id}_v{v}` — a copy of that already-updated profile stamped with
`version = v` and `promoted = True`, showing the best state is persisted
before the version is minted; when no promotion happens, no version is
assigned and the version list is unchanged, promotion being the only path
that extends it. -/
theorem optimizer_best_tracking_promotion :
    ∀ (th : ℚ) (gen : Option (Val → Val → Option Val))
      (refl : Val → EvalResult → Val → Option Val) (ps ss : Store)
      (pid : String) (mr : ℕ) (res : OptimizationResult) (s' : Store),
      optimize th gen refl ps ss pid mr = some (res, s') →
      res.final_score = scoresMax res.history ∧
      (res.promoted = true ↔ th ≤ res.final_score) ∧
      (res.promoted = false → res.promoted_version = none ∧
        ProfilesRepo.listVersions s' pid = ProfilesRepo.listVersions ps pid) ∧
      (res.promoted = true →
        ∃ (v : ℕ) (p snap : Obj) (br : Val),
          res.promoted_version = some v ∧
          objLookup s' pid = some (.obj p) ∧
          objLookup p "best_score" = some (.num res.final_score) ∧
          objLookup p "best_recipe" = some br ∧
          ((res.final_score = 0 ∧ br = .obj []) ∨
            ∃ r ∈ res.history, r.score = res.final_score ∧ r.recipe = br) ∧
          objLookup s' (pid ++ "_v" ++ toString v) = some (.obj snap) ∧
          objLookup snap "version" = some (.num v) ∧
          objLookup snap "promoted" = some (.bool true) ∧
          objLookup snap "best_score" = some (.num res.final_score) ∧
          objLookup snap "best_recipe" = some br) := by
  intro th gen refl ps ss pid mr res s' h
  obtain ⟨p0, st0, hcore, hst0⟩ :=
    optimize_inversion th gen refl ps ss pid mr res s' h
  obtain ⟨specsList, out, hloop, hhist, hrounds, hfinal, hpb, hdisj⟩ :=
    optimizeCore_inversion th gen refl ss pid mr p0 st0 res s' hcore
  obtain ⟨o1, o2, _, o3, o4, o5⟩ := optimizeLoop_invariant th gen refl pid
    specsList mr 1 p0 st0 [] 0 (.obj []) out hloop rfl (by simp)
    (Or.inl ⟨rfl, rfl⟩)
  refine ⟨by rw [hfinal, hhist, o1], by rw [hfinal]; exact hpb, ?_, ?_⟩
  · intro hfalse
    rcases hdisj with ⟨_, _, hnone, hs'⟩ |
      ⟨_, htrue, _⟩
    · subst hs'
      exact ⟨hnone, by rw [o4, hst0]⟩
    · rw [htrue] at hfalse
      exact Bool.noConfusion hfalse
  · intro htrue
    rcases hdisj with ⟨_, hfalse, _, _⟩ |
      ⟨hth, _, p, profile1, store1, v, hp, hprofile1, hstore1, _, hpv, hpromote⟩
    · rw [hfalse] at htrue
      exact Bool.noConfusion htrue
    · have hget : ProfilesRepo.get store1 pid = some profile1 := by
        rw [hstore1]
        exact objLookup_objSet_self _ _ _
      unfold ProfilesRepo.promote at hpromote
      rw [hget, hprofile1] at hpromote
      simp only [Option.some.injEq] at hpromote
      have hbs_ne : "best_score" ≠ "best_recipe" := by decide
      have hpObj : objLookup (objSet (objSet p "best_recipe" out.best_recipe)
          "best_score" (.num out.best_score)) "best_score" =
            some (.num out.best_score) :=
        objLookup_objSet_self _ _ _
      have hpObj2 : objLookup (objSet (objSet p "best_recipe" out.best_recipe)
          "best_score" (.num out.best_score)) "best_recipe" =
            some out.best_recipe := by
        rw [objLookup_objSet_ne _ _ _ _ hbs_ne]
        exact objLookup_objSet_self _ _ _
      refine ⟨v, objSet (objSet p "best_recipe" out.best_recipe)
          "best_score" (.num out.best_score),
        objSet (objSet (objSet (objSet p "best_recipe" out.best_recipe)
          "best_score" (.num out.best_score)) "version" (.num v))
          "promoted" (.bool true),
        out.best_recipe, hpv, ?_, by rw [hfinal]; exact hpObj, hpObj2,
        ?_, ?_, ?_, ?_, ?_, ?_⟩
      · rw [← hpromote, objLookup_objSet_ne _ _ _ _ (verKey_ne pid v), hstore1,
          hprofile1]
        exact objLookup_objSet_self _ _ _
      · rw [hfinal, hhist]
        rcases o3 with ⟨hz, hr⟩ | ⟨r, hrmem, h1, h2⟩
        · exact Or.inl ⟨hz, by rw [hr]⟩
        · exact Or.inr ⟨r, hrmem, h1, by rw [h2]⟩
      · rw [← hpromote]
        exact objLookup_objSet_self _ _ _
      · rw [objLookup_objSet_ne _ _ _ _ (by decide)]
        exact objLookup_objSet_self _ _ _
      · exact objLookup_objSet_self _ _ _
      · rw [objLookup_objSet_ne _ _ _ _ (by decide),
          objLookup_objSet_ne _ _ _ _ (by decide), hfinal]
        exact hpObj
      · rw [objLookup_objSet_ne _ _ _ _ (by decide),
          objLookup_objSet_ne _ _ _ _ (by decide)]
        exact hpObj2

/-- C3 witness: the promotion equivalence and final-score tracking at the
concrete threshold-0.01 run. -/
theorem optimizer_best_tracking_promotion_witness :
    ((optimize (1 / 100) none _default_reflector [] [] "p" 1).map (fun pr =>
      decide (pr.1.final_score = scoresMax pr.1.history ∧
        (pr.1.promoted = true ↔ (1 : ℚ) / 100 ≤ pr.1.final_score)))) =
      some true := by
  rcases hopt : optimize (1 / 100) none _default_reflector [] [] "p" 1 with _ | pr
  · have hs : (optimize (1 / 100) none _default_reflector [] [] "p" 1).isSome = true := by
      decide
    rw [hopt] at hs
    exact Bool.noConfusion hs
  · obtain ⟨h1, h2, _⟩ := optimizer_best_tracking_promotion (1 / 100) none
      _default_reflector [] [] "p" 1 pr.1 pr.2 hopt
    simp only [Option.map_some']
    exact congrArg some (decide_eq_true ⟨h1, h2⟩)
